import Mathlib

/-!
Verification of the query safety gateway of a natural-language-to-SQL tool.

The embedding models Python strings as `List Char` (ASCII semantics, which
covers every check the source performs: the keywords, the separator, the
whitespace and backtick stripping, and the `\b`-bounded verb patterns are
all ASCII).  The validator `validate_select_only_sql` is translated from
`src/llm.py`; the connection-string resolution, schema rendering and query
execution are translated from `src/db.py`.  Database interaction is
abstracted by passing the observable cursor data (column description and
fetched rows) as explicit inputs.
-/

namespace QuerySafety

abbrev Str := List Char

/-- Python `str.strip()` whitespace set (ASCII part). -/
def isPyWhitespace (c : Char) : Bool :=
  c = ' ' || c = '\t' || c = '\n' || c = '\r' || c = '\x0b' || c = '\x0c'

/-- The backtick character, stripped by `.strip("\x60")` in the source. -/
def backtickChar : Char := Char.ofNat 96

def isBacktickChar (c : Char) : Bool := c = backtickChar

/-- ASCII lowering of one character, as Python `str.lower()` acts on the
ASCII range. -/
def pyToLower (c : Char) : Char :=
  match c with
  | 'A' => 'a' | 'B' => 'b' | 'C' => 'c' | 'D' => 'd' | 'E' => 'e'
  | 'F' => 'f' | 'G' => 'g' | 'H' => 'h' | 'I' => 'i' | 'J' => 'j'
  | 'K' => 'k' | 'L' => 'l' | 'M' => 'm' | 'N' => 'n' | 'O' => 'o'
  | 'P' => 'p' | 'Q' => 'q' | 'R' => 'r' | 'S' => 's' | 'T' => 't'
  | 'U' => 'u' | 'V' => 'v' | 'W' => 'w' | 'X' => 'x' | 'Y' => 'y'
  | 'Z' => 'z'
  | c => c

def pyLower (s : Str) : Str := s.map pyToLower

/-- Python `str.strip(chars)`, left side: drop leading characters in the set. -/
def stripLeft (p : Char → Bool) (l : Str) : Str := l.dropWhile p

/-- Python `str.strip(chars)`, right side: drop trailing characters in the set. -/
def stripRight (p : Char → Bool) (l : Str) : Str := (l.reverse.dropWhile p).reverse

/-- Python `str.strip(chars)` (both ends). -/
def pyStrip (p : Char → Bool) (l : Str) : Str := stripRight p (stripLeft p l)

/-- Normalization step `sql.strip().strip("\x60").strip()` of `validate_select_only_sql`. -/
def pyNormalize (l : Str) : Str :=
  pyStrip isPyWhitespace (pyStrip isBacktickChar (pyStrip isPyWhitespace l))

/-- Model of `normalized.rstrip(";")`. -/
def rstripSemi (l : Str) : Str := stripRight (fun c => c = ';') l

/-- Python `s.startswith(w)`. -/
def startsWithL (w s : Str) : Bool := s.take w.length == w

/-- Regex word character (`\w` = `[a-zA-Z0-9_]` for ASCII patterns). -/
def isWordChar (c : Char) : Bool := c.isAlpha || c.isDigit || c = '_'

/-- True when position `j` of `s` is past the end or holds a non-word
character; used to express the `\b` boundary of the forbidden patterns. -/
def notWordAt (s : Str) (j : Nat) : Bool :=
  match s.drop j with
  | [] => true
  | c :: _ => !isWordChar c

/-- Success of `re.search` for pattern `\b w \b` at position `i` of `s`. -/
def matchWordAt (w s : Str) (i : Nat) : Bool :=
  ((s.drop i).take w.length == w)
    && ((i == 0) || notWordAt s (i - 1))
    && notWordAt s (i + w.length)

/-- Whether `re.search(r"\b w \b", s)` finds some match. -/
def hasWordMatch (w s : Str) : Bool :=
  (List.range (s.length + 1)).any (matchWordAt w s)

/-- List `FORBIDDEN_SQL_PATTERNS` from `src/llm.py` (each entry is the word of the
pattern `\bword\b`). -/
def FORBIDDEN_SQL_PATTERNS : List Str :=
  [("insert".toList), ("update".toList), ("delete".toList), ("drop".toList),
   ("alter".toList), ("create".toList), ("truncate".toList), ("merge".toList),
   ("exec".toList), ("execute".toList)]

/-- The first forbidden pattern whose `re.search` succeeds on the lowered
text, in list order, as the `for pattern in FORBIDDEN_SQL_PATTERNS` loop
reports it. -/
def findForbidden (low : Str) : Option Str :=
  FORBIDDEN_SQL_PATTERNS.find? (fun w => hasWordMatch w low)

/-- The validation failure kinds of `validate_select_only_sql`, one per
`raise LLMError(...)` site; `ForbiddenOperation` carries the matched
pattern word, as the message interpolates the pattern. -/
inductive ValidationError where
  | EmptyCandidate : ValidationError
  | MultipleStatements : ValidationError
  | DisallowedStatementType : ValidationError
  | ForbiddenOperation : Str → ValidationError
deriving DecidableEq

/-- Function `validate_select_only_sql` from `src/llm.py`, lines 36-54. -/
def validate_select_only_sql (sql : Str) : Except ValidationError Str :=
  let normalized := pyNormalize sql
  let lower := pyLower normalized
  if lower = [] then
    .error .EmptyCandidate
  else if ';' ∈ lower.dropLast then
    .error .MultipleStatements
  else if ¬ (startsWithL ("select".toList) lower = true ∨
             startsWithL ("with".toList) lower = true) then
    .error .DisallowedStatementType
  else
    match findForbidden lower with
    | some p => .error (.ForbiddenOperation p)
    | none => .ok (rstripSemi normalized)

/-- A database cell value as pyodbc hands it back (the claims need no finer
structure than distinguishable values). -/
inductive Value where
  | intV : Int → Value
  | strV : Str → Value
  | nullV : Value
deriving DecidableEq

/-- One step of building a Python `dict` from key/value pairs: a repeated key
keeps its original position and takes the later value. -/
def pyDictInsert (d : List (Str × Value)) (k : Str) (v : Value) :
    List (Str × Value) :=
  if d.any (fun p => p.1 == k) then
    d.map (fun p => if p.1 == k then (k, v) else p)
  else
    d ++ [(k, v)]

/-- Python `dict(pairs)` as an ordered association list (insertion order,
later value wins for a repeated key). -/
def pyDict (ps : List (Str × Value)) : List (Str × Value) :=
  ps.foldl (fun d p => pyDictInsert d p.1 p.2) []

/-- The dictionary shape returned by `run_select_query`. -/
structure ResultSet where
  columns : List Str
  rows : List (List (Str × Value))
  row_count : Nat
deriving DecidableEq

/-- Function `run_select_query` from `src/db.py`, lines 122-132.  The database side is
abstracted by its observable cursor data: `description` is
`cur.description` projected to the column names (`col[0]`, `none` when the
driver reports no description), and `resultRows` is the full result the
cursor could deliver, of which `cur.fetchmany(max_rows)` takes the first
`max_rows`. -/
def run_select_query (description : Option (List Str))
    (resultRows : List (List Value)) (max_rows : Nat) : ResultSet :=
  let columns := match description with
    | some names => names
    | none => []
  let rows := resultRows.take max_rows
  let data := rows.map (fun row => pyDict (columns.zip row))
  { columns := columns, rows := data, row_count := data.length }

/-- A row of the `INFORMATION_SCHEMA.TABLES` metadata query. -/
structure TableRow where
  TABLE_SCHEMA : Str
  TABLE_NAME : Str

/-- A row of the `INFORMATION_SCHEMA.COLUMNS` metadata query. -/
structure ColumnRow where
  TABLE_SCHEMA : Str
  TABLE_NAME : Str
  COLUMN_NAME : Str
  DATA_TYPE : Str

def tableLine (r : TableRow) : Str :=
  ("- ".toList) ++ r.TABLE_SCHEMA ++ (".".toList) ++ r.TABLE_NAME

def columnLine (r : ColumnRow) : Str :=
  ("- ".toList) ++ r.TABLE_SCHEMA ++ (".".toList) ++ r.TABLE_NAME ++
    (".".toList) ++ r.COLUMN_NAME ++ (" (".toList) ++ r.DATA_TYPE ++ (")".toList)

/-- Python `sep.join(xs)`. -/
def joinSep (sep : Str) : List Str → Str
  | [] => []
  | [x] => x
  | x :: y :: xs => x ++ sep ++ joinSep sep (y :: xs)

/-- Function `fetch_schema_context` from `src/db.py`, lines 82-119.  The two metadata
queries are abstracted by the catalog contents they page over:
`SELECT TOP (k) ... ORDER BY ...` returns the first `k` rows of the ordered
catalog, modelled as `List.take` on the given (already ordered) row lists. -/
def fetch_schema_context (catalogTables : List TableRow)
    (catalogColumns : List ColumnRow)
    (limit_tables limit_columns : Nat) : Str :=
  let tables := catalogTables.take limit_tables
  let columns := catalogColumns.take limit_columns
  let table_lines := tables.map tableLine
  let column_lines := columns.map columnLine
  joinSep ("\n".toList)
    ([("TABLES:".toList)] ++
     (if table_lines = [] then [("- (none found)".toList)] else table_lines) ++
     [[]] ++
     [("COLUMNS:".toList)] ++
     (if column_lines = [] then [("- (none found)".toList)] else column_lines))

/-- The process environment, as `os.getenv` sees it. -/
def Env := String → Option String

/-- Python truthiness of an `os.getenv` result (`None` and `""` are falsy). -/
def truthy : Option String → Bool
  | none => false
  | some s => !(s = "")

/-- Model of `os.getenv(key, default)`. -/
def getenvD (env : Env) (key default : String) : String :=
  (env key).getD default

/-- Python `str.lower()` on a `String` (ASCII, see `pyToLower`). -/
def pyLowerS (s : String) : String := String.mk (pyLower s.toList)

/-- Python `sep.join(xs)` on `String`s. -/
def joinStrings (sep : String) : List String → String
  | [] => ""
  | [x] => x
  | x :: y :: xs => x ++ sep ++ joinStrings sep (y :: xs)

/-- Function `_build_conn_str_from_parts` from `src/db.py`, lines 18-52, including the
exact environment keys the source reads (`"proto"`, `"TheMachine"`,
`"proto"` again for the database, and `"emsdba"` for both credentials) and
the exact message of the raised `DatabaseError`. -/
def build_conn_str_from_parts (env : Env) : Except String (Option String) :=
  let driver := env ("proto")
  let server := env ("TheMachine")
  let database := env ("proto")
  if ¬ (truthy driver = true ∧ truthy server = true ∧ truthy database = true) then
    .ok none
  else
    let parts : List String :=
      ["DRIVER=\x7b" ++ driver.getD ("") ++ "\x7d",
       "SERVER=" ++ server.getD (""),
       "DATABASE=" ++ database.getD (""),
       "Encrypt=" ++ getenvD env ("MSSQL_ENCRYPT") "yes",
       "TrustServerCertificate=" ++ getenvD env ("MSSQL_TRUST_SERVER_CERT") "yes"]
    if pyLowerS (getenvD env ("MSSQL_TRUSTED_CONNECTION") "no") ∈
        ["yes", "true", "1"] then
      .ok (some (joinStrings (";") (parts ++ ["Trusted_Connection=yes"]) ++ ";"))
    else
      let uid := env ("emsdba")
      let pwd := env ("emsdba")
      if ¬ (truthy uid = true ∧ truthy pwd = true) then
        .error ("Using split MSSQL settings requires MSSQL_UID and MSSQL_PWD, " ++
                "unless MSSQL_TRUSTED_CONNECTION=yes.")
      else
        .ok (some (joinStrings (";")
          (parts ++ ["UID=" ++ uid.getD (""), "PWD=" ++ pwd.getD ("")]) ++ ";"))

/-- The connection-parameter resolution performed by `get_connection`
(`src/db.py`, lines 55-71) before any network call:
`conn_str = os.getenv("MSSQL_ODBC_CONN_STR") or _build_conn_str_from_parts()`,
then `raise DatabaseError(...)` when the result is falsy. -/
def resolve_conn_str (env : Env) : Except String String :=
  let direct := env ("MSSQL_ODBC_CONN_STR")
  if truthy direct then
    .ok (direct.getD (""))
  else
    match build_conn_str_from_parts env with
    | .error e => .error e
    | .ok built =>
      if truthy built then
        .ok (built.getD (""))
      else
        .error ("Set either MSSQL_ODBC_CONN_STR, or split vars: " ++
                "MSSQL_ODBC_DRIVER, MSSQL_SERVER, MSSQL_DATABASE, " ++
                "plus MSSQL_UID/MSSQL_PWD (or MSSQL_TRUSTED_CONNECTION=yes).")

/-- An environment holding exactly the split-style settings that
`get_connection`'s docstring and error message document. -/
def envDocumentedSplit : Env := fun k =>
  if k = "MSSQL_ODBC_DRIVER" then some ("ODBC Driver 18 for SQL Server")
  else if k = "MSSQL_SERVER" then some ("localhost")
  else if k = "MSSQL_DATABASE" then some ("Northwind")
  else if k = "MSSQL_UID" then some ("reader")
  else if k = "MSSQL_PWD" then some ("secret")
  else none

/-- An environment holding values under the keys the source actually reads. -/
def envActualKeys : Env := fun k =>
  if k = "proto" then some ("DriverAndDatabase")
  else if k = "TheMachine" then some ("srv")
  else if k = "emsdba" then some ("sa")
  else none


theorem stripRight_decomp (p : Char → Bool) (l : Str) :
    ∃ u, l = stripRight p l ++ u ∧ ∀ c ∈ u, p c = true := by
  refine ⟨(l.reverse.takeWhile p).reverse, ?_, fun c hc =>
    List.mem_takeWhile_imp (List.mem_reverse.mp hc)⟩
  rw [stripRight, ← List.reverse_append, List.takeWhile_append_dropWhile,
    List.reverse_reverse]

theorem dropWhile_eq_self_of_all (p : Char → Bool) (l : Str)
    (h : ∀ c ∈ l, p c = false) : l.dropWhile p = l := by
  cases l with
  | nil => rfl
  | cons a t =>
    rw [List.dropWhile_cons]
    simp [h a (List.mem_cons_self a t)]

theorem stripRight_eq_self (p : Char → Bool) (l : Str)
    (h : ∀ c ∈ l, p c = false) : stripRight p l = l := by
  rw [stripRight, dropWhile_eq_self_of_all p _ (fun c hc => h c (List.mem_reverse.mp hc)),
    List.reverse_reverse]

theorem stripLeft_cons_of_false (p : Char → Bool) (c : Char) (l : Str)
    (h : p c = false) : stripLeft p (c :: l) = c :: l := by
  rw [stripLeft, List.dropWhile_cons]
  simp [h]

theorem stripRight_cons_of_false (p : Char → Bool) (c : Char) (l : Str)
    (h : p c = false) : ∃ r, stripRight p (c :: l) = c :: r := by
  obtain ⟨u, hdec, hall⟩ := stripRight_decomp p (c :: l)
  cases hsr : stripRight p (c :: l) with
  | nil =>
    rw [hsr, List.nil_append] at hdec
    have hcu : c ∈ u := by rw [← hdec]; exact List.mem_cons_self c l
    have := hall c hcu
    rw [h] at this
    cases this
  | cons d r =>
    refine ⟨r, ?_⟩
    rw [hsr] at hdec
    have hcd : c = d := by
      have h2 := congrArg List.head? hdec
      simpa using h2
    rw [hcd]

theorem rstripSemi_eq_self (l : Str) (h : ';' ∉ l) : rstripSemi l = l := by
  apply stripRight_eq_self
  intro c hc
  by_cases he : c = ';'
  · exact absurd (he ▸ hc) h
  · simp [he]

theorem semi_not_mem_rstripSemi (l : Str) (h : ';' ∉ l.dropLast) :
    ';' ∉ rstripSemi l := by
  rcases List.eq_nil_or_concat l with rfl | ⟨ds, a, rfl⟩
  · simp [rstripSemi, stripRight]
  · rw [List.concat_eq_append] at h ⊢
    rw [List.dropLast_concat] at h
    rw [rstripSemi, stripRight, List.reverse_concat]
    by_cases ha : a = ';'
    · have hall : ∀ c ∈ ds.reverse, (fun c => decide (c = ';')) c = false := by
        intro c hc
        by_cases hc' : c = ';'
        · exact absurd (hc' ▸ (List.mem_reverse.mp hc)) h
        · simp [hc']
      rw [List.dropWhile_cons, if_pos (by simp [ha]),
        dropWhile_eq_self_of_all _ _ hall, List.reverse_reverse]
      exact h
    · rw [List.dropWhile_cons, if_neg (by simp [ha]), List.reverse_cons,
        List.reverse_reverse]
      intro hmem
      rcases List.mem_append.mp hmem with h1 | h2
      · exact h h1
      · exact ha (List.mem_singleton.mp h2).symm

theorem pyToLower_semi {c : Char} (h : pyToLower c = ';') : c = ';' := by
  unfold pyToLower at h
  split at h <;> first | exact h | exact absurd h (by decide)

theorem isWordChar_pyToLower (c : Char) :
    isWordChar (pyToLower c) = isWordChar c := by
  unfold pyToLower
  split <;> rfl

theorem ws_not_word {c : Char} (h : isPyWhitespace c = true) : isWordChar c = false := by
  unfold isPyWhitespace at h
  simp only [Bool.or_eq_true, decide_eq_true_iff] at h
  rcases h with ((((h|h)|h)|h)|h)|h <;> subst h <;> decide

theorem bt_not_word {c : Char} (h : isBacktickChar c = true) : isWordChar c = false := by
  unfold isBacktickChar at h
  rw [decide_eq_true_iff] at h
  subst h
  decide

theorem wordChar_not_ws {c : Char} (h : isWordChar c = true) : isPyWhitespace c = false := by
  cases hw : isPyWhitespace c
  · rfl
  · rw [ws_not_word hw] at h
    cases h

theorem wordChar_not_bt {c : Char} (h : isWordChar c = true) : isBacktickChar c = false := by
  cases hw : isBacktickChar c
  · rfl
  · rw [bt_not_word hw] at h
    cases h

theorem wordChar_ne_semi {c : Char} (h : isWordChar c = true) : c ≠ ';' := by
  intro he
  rw [he] at h
  exact absurd h (by decide)

theorem semi_mem_pyLower {l : Str} : ';' ∈ pyLower l ↔ ';' ∈ l := by
  unfold pyLower
  constructor
  · intro h
    obtain ⟨c, hc, he⟩ := List.mem_map.mp h
    exact (pyToLower_semi he) ▸ hc
  · intro h
    exact List.mem_map.mpr ⟨';', h, rfl⟩

theorem pyLower_dropLast (l : Str) : (pyLower l).dropLast = pyLower l.dropLast := by
  unfold pyLower
  rw [List.dropLast_eq_take, List.dropLast_eq_take, List.length_map, List.map_take]

theorem startsWithL_take_eq {w s : Str} (h : startsWithL w s = true) :
    s.take w.length = w := by
  unfold startsWithL at h
  exact beq_iff_eq.mp h

theorem startsWithL_ne_nil {w s : Str} (h : startsWithL w s = true) (hw : w ≠ []) :
    s ≠ [] := by
  intro hs
  have h2 := startsWithL_take_eq h
  rw [hs] at h2
  simp at h2
  exact hw h2

theorem startsWithL_append {w a b : Str} (h : w.length ≤ a.length) :
    startsWithL w (a ++ b) = startsWithL w a := by
  unfold startsWithL
  rw [List.take_append_of_le_length h]

theorem length_le_of_take_eq {l w : Str} (h : l.take w.length = w) :
    w.length ≤ l.length := by
  have h1 : w.length ⊓ l.length = w.length := by
    rw [← List.length_take w.length l, h]
  calc w.length = w.length ⊓ l.length := h1.symm
    _ ≤ l.length := Nat.min_le_right _ _

theorem notWordAt_append_left {s tail : Str} {j : Nat} (h : j < s.length) :
    notWordAt (s ++ tail) j = notWordAt s j := by
  unfold notWordAt
  rw [List.drop_append_of_le_length (Nat.le_of_lt h)]
  have hne : s.drop j ≠ [] := by
    apply List.ne_nil_of_length_pos
    rw [List.length_drop]
    omega
  obtain ⟨d, r, hdr⟩ := List.exists_cons_of_ne_nil hne
  rw [hdr, List.cons_append]

theorem notWordAt_append_end {s tail : Str}
    (htail : ∀ c ∈ tail, isWordChar c = false) :
    notWordAt (s ++ tail) s.length = true := by
  unfold notWordAt
  rw [List.drop_left]
  cases tail with
  | nil => rfl
  | cons d r => simp [htail d (List.mem_cons_self d r)]

theorem notWordAt_zero_of_all {tail : Str}
    (htail : ∀ c ∈ tail, isWordChar c = false) : notWordAt tail 0 = true := by
  unfold notWordAt
  cases tail with
  | nil => rfl
  | cons d r => simp [htail d (List.mem_cons_self d r)]

theorem hasWordMatch_append {w s tail : Str}
    (htail : ∀ c ∈ tail, isWordChar c = false)
    (h : hasWordMatch w s = true) : hasWordMatch w (s ++ tail) = true := by
  unfold hasWordMatch at h ⊢
  obtain ⟨i, hi, hm⟩ := List.any_eq_true.mp h
  have hi' : i ≤ s.length := Nat.lt_succ_iff.mp (List.mem_range.mp hi)
  unfold matchWordAt at hm
  rw [Bool.and_eq_true, Bool.and_eq_true] at hm
  obtain ⟨⟨hsub, hbefore⟩, hafter⟩ := hm
  have hsub' : (s.drop i).take w.length = w := beq_iff_eq.mp hsub
  have hwlen : w.length ≤ (s.drop i).length := length_le_of_take_eq hsub'
  rw [List.length_drop] at hwlen
  apply List.any_eq_true.mpr
  refine ⟨i, List.mem_range.mpr ?_, ?_⟩
  · rw [List.length_append]
    omega
  · unfold matchWordAt
    rw [Bool.and_eq_true, Bool.and_eq_true]
    refine ⟨⟨?_, ?_⟩, ?_⟩
    · rw [List.drop_append_of_le_length hi',
        List.take_append_of_le_length (by rw [List.length_drop]; exact hwlen), hsub']
      simp
    · rw [Bool.or_eq_true] at hbefore ⊢
      rcases hbefore with h0 | hb
      · exact Or.inl h0
      · right
        by_cases hj : i - 1 < s.length
        · rw [notWordAt_append_left hj]
          exact hb
        · have hs0 : s.length = 0 ∧ i = 0 := by omega
          have hsnil : s = [] := List.eq_nil_of_length_eq_zero hs0.1
          subst hsnil
          rw [hs0.2]
          simpa using notWordAt_zero_of_all htail
    · by_cases hj : i + w.length < s.length
      · rw [notWordAt_append_left hj]
        exact hafter
      · have hje : i + w.length = s.length := by omega
        rw [hje]
        exact notWordAt_append_end htail

theorem findForbidden_none_of_append {s tail : Str}
    (htail : ∀ c ∈ tail, isWordChar c = false)
    (h : findForbidden (s ++ tail) = none) : findForbidden s = none := by
  unfold findForbidden at h ⊢
  rw [List.find?_eq_none] at h ⊢
  intro w hw hmatch
  exact h w hw (hasWordMatch_append htail hmatch)

theorem validate_ok_inv {x t : Str} (h : validate_select_only_sql x = .ok t) :
    pyLower (pyNormalize x) ≠ [] ∧
    ';' ∉ (pyLower (pyNormalize x)).dropLast ∧
    (startsWithL ("select".toList) (pyLower (pyNormalize x)) = true ∨
      startsWithL ("with".toList) (pyLower (pyNormalize x)) = true) ∧
    findForbidden (pyLower (pyNormalize x)) = none ∧
    t = rstripSemi (pyNormalize x) := by
  unfold validate_select_only_sql at h
  dsimp only [] at h
  split at h
  · exact absurd h (by simp)
  · split at h
    · exact absurd h (by simp)
    · split at h
      · exact absurd h (by simp)
      · rename_i h1 h2 h3
        split at h
        · exact absurd h (by simp)
        · rename_i hp
          cases h
          exact ⟨h1, h2, not_not.mp h3, hp, rfl⟩

theorem validate_ok_mk {x : Str}
    (h1 : pyLower (pyNormalize x) ≠ [])
    (h2 : ';' ∉ (pyLower (pyNormalize x)).dropLast)
    (h3 : startsWithL ("select".toList) (pyLower (pyNormalize x)) = true ∨
      startsWithL ("with".toList) (pyLower (pyNormalize x)) = true)
    (h4 : findForbidden (pyLower (pyNormalize x)) = none) :
    validate_select_only_sql x = .ok (rstripSemi (pyNormalize x)) := by
  unfold validate_select_only_sql
  dsimp only []
  rw [if_neg h1, if_neg h2, if_neg (not_not_intro h3), h4]

theorem validate_multi_mk {x : Str} (h : ';' ∈ (pyNormalize x).dropLast) :
    validate_select_only_sql x = .error .MultipleStatements := by
  have hlow : ';' ∈ (pyLower (pyNormalize x)).dropLast := by
    rw [pyLower_dropLast]
    exact semi_mem_pyLower.mpr h
  have h1 : pyLower (pyNormalize x) ≠ [] := by
    intro he
    rw [he] at hlow
    simp at hlow
  unfold validate_select_only_sql
  dsimp only []
  rw [if_neg h1, if_pos hlow]

theorem validate_multi_inv {x : Str}
    (h : validate_select_only_sql x = .error .MultipleStatements) :
    ';' ∈ (pyNormalize x).dropLast := by
  unfold validate_select_only_sql at h
  dsimp only [] at h
  split at h
  · simp at h
  · split at h
    · rename_i h2
      rw [pyLower_dropLast] at h2
      exact semi_mem_pyLower.mp h2
    · split at h
      · simp at h
      · split at h
        · simp at h
        · simp at h

theorem select_chars : ∀ c ∈ ("select".toList), isWordChar c = true := by decide

theorem with_chars : ∀ c ∈ ("with".toList), isWordChar c = true := by decide

theorem pyNormalize_decomp (c : Char) (l₀ : Str)
    (hws : isPyWhitespace c = false) (hbt : isBacktickChar c = false) :
    ∃ u, c :: l₀ = pyNormalize (c :: l₀) ++ u ∧
      ∀ d ∈ u, isPyWhitespace d = true ∨ isBacktickChar d = true := by
  have s1 : pyStrip isPyWhitespace (c :: l₀) = stripRight isPyWhitespace (c :: l₀) := by
    rw [pyStrip, stripLeft_cons_of_false _ _ _ hws]
  obtain ⟨u₁, hd₁, ha₁⟩ := stripRight_decomp isPyWhitespace (c :: l₀)
  obtain ⟨r₁, hr₁⟩ := stripRight_cons_of_false isPyWhitespace c l₀ hws
  have s2 : pyStrip isBacktickChar (c :: r₁) = stripRight isBacktickChar (c :: r₁) := by
    rw [pyStrip, stripLeft_cons_of_false _ _ _ hbt]
  obtain ⟨u₂, hd₂, ha₂⟩ := stripRight_decomp isBacktickChar (c :: r₁)
  obtain ⟨r₂, hr₂⟩ := stripRight_cons_of_false isBacktickChar c r₁ hbt
  have s3 : pyStrip isPyWhitespace (c :: r₂) = stripRight isPyWhitespace (c :: r₂) := by
    rw [pyStrip, stripLeft_cons_of_false _ _ _ hws]
  obtain ⟨u₃, hd₃, ha₃⟩ := stripRight_decomp isPyWhitespace (c :: r₂)
  refine ⟨u₃ ++ u₂ ++ u₁, ?_, ?_⟩
  · have hn : pyNormalize (c :: l₀) = stripRight isPyWhitespace (c :: r₂) := by
      rw [pyNormalize, s1, hr₁, s2, hr₂, s3]
    rw [hn]
    calc c :: l₀ = stripRight isPyWhitespace (c :: l₀) ++ u₁ := hd₁
      _ = (c :: r₁) ++ u₁ := by rw [hr₁]
      _ = (stripRight isBacktickChar (c :: r₁) ++ u₂) ++ u₁ := by rw [← hd₂]
      _ = ((c :: r₂) ++ u₂) ++ u₁ := by rw [hr₂]
      _ = ((stripRight isPyWhitespace (c :: r₂) ++ u₃) ++ u₂) ++ u₁ := by rw [← hd₃]
      _ = stripRight isPyWhitespace (c :: r₂) ++ (u₃ ++ u₂ ++ u₁) := by
          simp [List.append_assoc]
  · intro d hd
    rcases List.mem_append.mp hd with hdu | hd1
    · rcases List.mem_append.mp hdu with hd3 | hd2
      · exact Or.inl (ha₃ d hd3)
      · exact Or.inr (ha₂ d hd2)
    · exact Or.inl (ha₁ d hd1)

theorem length_ge_of_startsWith {low lowp tl w : Str}
    (hdec : low = lowp ++ tl)
    (htl : ∀ c ∈ tl, isWordChar c = false)
    (hs : startsWithL w low = true)
    (hw : ∀ c ∈ w, isWordChar c = true) :
    w.length ≤ lowp.length := by
  by_contra hlt
  push_neg at hlt
  have htake : low.take w.length = w := startsWithL_take_eq hs
  have htl_eq : tl = low.drop lowp.length := by rw [hdec, List.drop_left]
  have hw_eq : low = w ++ low.drop w.length := by
    conv_lhs => rw [← List.take_append_drop w.length low]
    rw [htake]
  have hdrop : low.drop lowp.length = w.drop lowp.length ++ low.drop w.length := by
    conv_lhs => rw [hw_eq]
    rw [List.drop_append_of_le_length (Nat.le_of_lt hlt)]
  have hne : w.drop lowp.length ≠ [] := by
    apply List.ne_nil_of_length_pos
    rw [List.length_drop]
    omega
  obtain ⟨d, dr, hddr⟩ := List.exists_cons_of_ne_nil hne
  have hd_tl : d ∈ tl := by
    rw [htl_eq, hdrop, hddr, List.cons_append]
    exact List.mem_cons_self _ _
  have hd_w : d ∈ w := by
    apply List.mem_of_mem_drop (n := lowp.length)
    rw [hddr]
    exact List.mem_cons_self _ _
  have hcontra := htl d hd_tl
  rw [hw d hd_w] at hcontra
  cases hcontra

theorem head_word_of_startsWith {w : Str} {a : Char} {l : Str}
    (hs : startsWithL w (a :: l) = true) (hw : ∀ c ∈ w, isWordChar c = true)
    (hne : w ≠ []) : isWordChar a = true := by
  obtain ⟨b, w₀, rfl⟩ := List.exists_cons_of_ne_nil hne
  have htake := startsWithL_take_eq hs
  rw [List.length_cons, List.take_succ_cons] at htake
  injection htake with hab htail
  rw [hab]
  exact hw b (List.mem_cons_self _ _)

theorem semi_not_mem_of_ok {x t : Str} (h : validate_select_only_sql x = .ok t) :
    ';' ∉ t := by
  obtain ⟨h1, h2, h3, h4, ht⟩ := validate_ok_inv h
  have hn : ';' ∉ (pyNormalize x).dropLast := by
    intro hc
    exact h2 (by rw [pyLower_dropLast]; exact semi_mem_pyLower.mpr hc)
  rw [ht]
  exact semi_not_mem_rstripSemi _ hn

theorem validate_on_validated {x t : Str} (h : validate_select_only_sql x = .ok t) :
    validate_select_only_sql t = .ok (pyNormalize t) := by
  obtain ⟨h1, h2, h3, h4, ht⟩ := validate_ok_inv h
  have hnne : pyNormalize x ≠ [] := by
    intro he
    exact h1 (by rw [pyLower, he]; rfl)
  obtain ⟨c, n₀, hcons⟩ := List.exists_cons_of_ne_nil hnne
  have hlowcons : pyLower (pyNormalize x) = pyToLower c :: pyLower n₀ := by
    rw [hcons]
    rfl
  have hcword : isWordChar (pyToLower c) = true := by
    rcases h3 with hs | hs
    · rw [hlowcons] at hs
      exact head_word_of_startsWith hs select_chars (by decide)
    · rw [hlowcons] at hs
      exact head_word_of_startsWith hs with_chars (by decide)
  have hcw : isWordChar c = true := by
    rw [← isWordChar_pyToLower]
    exact hcword
  have hws := wordChar_not_ws hcw
  have hbt := wordChar_not_bt hcw
  have hsemi := wordChar_ne_semi hcw
  obtain ⟨u₀, hdu₀, hau₀⟩ := stripRight_decomp (fun ch => ch = ';') (pyNormalize x)
  have hdu₀' : pyNormalize x = rstripSemi (pyNormalize x) ++ u₀ := hdu₀
  have hpred : (fun ch => decide (ch = ';')) c = false := by simp [hsemi]
  obtain ⟨r₀, hr₀⟩ := stripRight_cons_of_false (fun ch => ch = ';') c n₀ hpred
  have htcons : t = c :: r₀ := by
    rw [ht, hcons]
    exact hr₀
  obtain ⟨u₁, hdu₁, hau₁⟩ := pyNormalize_decomp c r₀ hws hbt
  have hbig : pyNormalize x = pyNormalize t ++ (u₁ ++ u₀) := by
    rw [hcons]
    calc c :: n₀ = rstripSemi (pyNormalize x) ++ u₀ := by rw [← hcons]; exact hdu₀'
      _ = t ++ u₀ := by rw [← ht]
      _ = (c :: r₀) ++ u₀ := by rw [htcons]
      _ = (pyNormalize (c :: r₀) ++ u₁) ++ u₀ := by rw [← hdu₁]
      _ = pyNormalize t ++ (u₁ ++ u₀) := by rw [← htcons, List.append_assoc]
  have hU : ∀ d ∈ (u₁ ++ u₀), isWordChar d = false := by
    intro d hd
    rcases List.mem_append.mp hd with hd1 | hd0
    · rcases hau₁ d hd1 with hws' | hbt'
      · exact ws_not_word hws'
      · exact bt_not_word hbt'
    · have hdse : d = ';' := by simpa using hau₀ d hd0
      rw [hdse]
      decide
  have hlowdec : pyLower (pyNormalize x) = pyLower (pyNormalize t) ++ pyLower (u₁ ++ u₀) := by
    rw [hbig]
    unfold pyLower
    rw [List.map_append]
  have hUlow : ∀ d ∈ pyLower (u₁ ++ u₀), isWordChar d = false := by
    intro d hd
    obtain ⟨e, he, hde⟩ := List.mem_map.mp hd
    rw [← hde, isWordChar_pyToLower]
    exact hU e he
  have hsw : startsWithL ("select".toList) (pyLower (pyNormalize t)) = true ∨
      startsWithL ("with".toList) (pyLower (pyNormalize t)) = true := by
    rcases h3 with hs | hs
    · left
      have hlen := length_ge_of_startsWith hlowdec hUlow hs select_chars
      rw [hlowdec, startsWithL_append hlen] at hs
      exact hs
    · right
      have hlen := length_ge_of_startsWith hlowdec hUlow hs with_chars
      rw [hlowdec, startsWithL_append hlen] at hs
      exact hs
  have hlowne : pyLower (pyNormalize t) ≠ [] := by
    rcases hsw with hs | hs
    · exact startsWithL_ne_nil hs (by decide)
    · exact startsWithL_ne_nil hs (by decide)
  have hsemit : ';' ∉ t := semi_not_mem_of_ok h
  have hsemin : ';' ∉ pyNormalize t := by
    intro hc
    apply hsemit
    rw [htcons] at hc ⊢
    rw [hdu₁]
    exact List.mem_append.mpr (Or.inl hc)
  have hdrop : ';' ∉ (pyLower (pyNormalize t)).dropLast := by
    intro hc
    exact hsemin (semi_mem_pyLower.mp (List.mem_of_mem_dropLast hc))
  have hforb : findForbidden (pyLower (pyNormalize t)) = none := by
    apply findForbidden_none_of_append hUlow
    rw [← hlowdec]
    exact h4
  have hmk := validate_ok_mk (x := t) hlowne hdrop hsw hforb
  rw [hmk, rstripSemi_eq_self _ hsemin]

theorem pyDict_go (ps : List (Str × Value)) :
    ∀ d : List (Str × Value), ((d ++ ps).map Prod.fst).Nodup →
      ps.foldl (fun d p => pyDictInsert d p.1 p.2) d = d ++ ps := by
  induction ps with
  | nil =>
    intro d _
    simp
  | cons kv ps ih =>
    intro d hnd
    rw [List.foldl_cons]
    have hk : kv.1 ∉ d.map Prod.fst := by
      rw [List.map_append] at hnd
      have h2 := List.nodup_append.mp hnd
      intro hmem
      exact (h2.2.2 hmem) (List.mem_map.mpr ⟨kv, List.mem_cons_self _ _, rfl⟩)
    have hins : pyDictInsert d kv.1 kv.2 = d ++ [(kv.1, kv.2)] := by
      unfold pyDictInsert
      rw [if_neg]
      intro hany
      rw [List.any_eq_true] at hany
      obtain ⟨p, hp, hpk⟩ := hany
      exact hk (List.mem_map.mpr ⟨p, hp, beq_iff_eq.mp hpk⟩)
    have heq : (d ++ [(kv.1, kv.2)]) ++ ps = d ++ kv :: ps := by
      rw [List.append_assoc, List.singleton_append, Prod.mk.eta]
    have hnd2 : (((d ++ [(kv.1, kv.2)]) ++ ps).map Prod.fst).Nodup := by
      rw [heq]
      exact hnd
    rw [hins, ih (d ++ [(kv.1, kv.2)]) hnd2]
    exact heq

theorem pyDict_nodup {ps : List (Str × Value)} (h : (ps.map Prod.fst).Nodup) :
    pyDict ps = ps := by
  unfold pyDict
  have hgo := pyDict_go ps [] (by simpa using h)
  simpa using hgo

theorem joinSep_cons_decomp (sep a : Str) (l : List Str) :
    ∃ r, joinSep sep (a :: l) = a ++ r := by
  cases l with
  | nil => exact ⟨[], by simp [joinSep]⟩
  | cons b t => exact ⟨sep ++ joinSep sep (b :: t), by simp [joinSep, List.append_assoc]⟩

theorem joinSep_mem_decomp {x : Str} {l : List Str} (sep : Str) (hx : x ∈ l) :
    ∃ pre post, joinSep sep l = pre ++ x ++ post := by
  induction l with
  | nil => cases hx
  | cons a tail ih =>
    rcases List.mem_cons.mp hx with rfl | hmem
    · obtain ⟨r, hr⟩ := joinSep_cons_decomp sep x tail
      exact ⟨[], r, by rw [hr]; simp⟩
    · have htail_ne : tail ≠ [] := by
        intro he
        rw [he] at hmem
        cases hmem
      obtain ⟨b, t, rfl⟩ := List.exists_cons_of_ne_nil htail_ne
      obtain ⟨pre, post, hpp⟩ := ih hmem
      refine ⟨a ++ sep ++ pre, post, ?_⟩
      simp only [joinSep]
      rw [hpp]
      simp [List.append_assoc]

theorem joinSep_head_ne_nil {sep a : Str} {l : List Str} (ha : a ≠ []) :
    joinSep sep (a :: l) ≠ [] := by
  obtain ⟨r, hr⟩ := joinSep_cons_decomp sep a l
  rw [hr]
  intro he
  exact ha (List.append_eq_nil.mp he).1

theorem schema_render_props (tl cl : List Str) :
    joinSep ("\n".toList)
        ([("TABLES:".toList)] ++ tl ++ [[]] ++ [("COLUMNS:".toList)] ++ cl) ≠ [] ∧
    (∃ pre post, joinSep ("\n".toList)
        ([("TABLES:".toList)] ++ tl ++ [[]] ++ [("COLUMNS:".toList)] ++ cl) =
        pre ++ ("TABLES:".toList) ++ post) ∧
    (∃ pre post, joinSep ("\n".toList)
        ([("TABLES:".toList)] ++ tl ++ [[]] ++ [("COLUMNS:".toList)] ++ cl) =
        pre ++ ("COLUMNS:".toList) ++ post) := by
  have hlist : [("TABLES:".toList)] ++ tl ++ [[]] ++ [("COLUMNS:".toList)] ++ cl =
      ("TABLES:".toList) :: (tl ++ [[]] ++ [("COLUMNS:".toList)] ++ cl) := by
    simp
  refine ⟨?_, ?_, ?_⟩
  · rw [hlist]
    exact joinSep_head_ne_nil (by decide)
  · exact joinSep_mem_decomp _ (by simp)
  · exact joinSep_mem_decomp _ (by simp)

/-- C1: as stated, the claim is false on the code: the start-token gate runs
before the forbidden-verb scan, so `validate_select_only_sql` rejects
`"DROP TABLE Customers"` with the disallowed-statement-type error, not with
a forbidden-operation error referencing `drop`. -/
theorem c1_counterexample :
    validate_select_only_sql ("DROP TABLE Customers".toList) =
      .error .DisallowedStatementType := rfl

/-- C1 (amended): for every raw candidate that passes the earlier gates (no
separator before the final character of the normalized text, lowered text
starting with `select` or `with`) and whose lowered normalized text matches
a forbidden verb as a whole word, `validate_select_only_sql` fails with
`ForbiddenOperation` carrying the first matched pattern. -/
theorem c1_theorem (x p : Str)
    (hsep : ';' ∉ (pyLower (pyNormalize x)).dropLast)
    (hstart : startsWithL ("select".toList) (pyLower (pyNormalize x)) = true ∨
      startsWithL ("with".toList) (pyLower (pyNormalize x)) = true)
    (hforb : findForbidden (pyLower (pyNormalize x)) = some p) :
    validate_select_only_sql x = .error (.ForbiddenOperation p) := by
  have h1 : pyLower (pyNormalize x) ≠ [] := by
    rcases hstart with hs | hs
    · exact startsWithL_ne_nil hs (by decide)
    · exact startsWithL_ne_nil hs (by decide)
  unfold validate_select_only_sql
  dsimp only []
  rw [if_neg h1, if_neg hsep, if_neg (not_not_intro hstart), hforb]

/-- C1 witness: `"select drop"` passes the earlier gates and is rejected with
`ForbiddenOperation` carrying the `drop` pattern. -/
theorem c1_witness :
    validate_select_only_sql ("select drop".toList) =
      .error (.ForbiddenOperation ("drop".toList)) :=
  c1_theorem ("select drop".toList) ("drop".toList) (by decide)
    (Or.inl (by decide)) (by decide)

/-- C2: the claim is right and the code is wrong.  With the split-style
variables that `get_connection`'s docstring and error message document
(`MSSQL_ODBC_DRIVER`, `MSSQL_SERVER`, `MSSQL_DATABASE`, `MSSQL_UID`,
`MSSQL_PWD`) all set, resolution still fails with the configuration error,
because `_build_conn_str_from_parts` actually reads the unrelated keys
`"proto"`, `"TheMachine"` and `"emsdba"`; under those undocumented keys it
succeeds, with driver and database forced equal and UID equal to PWD. -/
theorem c2_theorem :
    resolve_conn_str envDocumentedSplit =
      .error ("Set either MSSQL_ODBC_CONN_STR, or split vars: " ++
        "MSSQL_ODBC_DRIVER, MSSQL_SERVER, MSSQL_DATABASE, " ++
        "plus MSSQL_UID/MSSQL_PWD (or MSSQL_TRUSTED_CONNECTION=yes).") ∧
    resolve_conn_str envActualKeys =
      .ok ("DRIVER=\x7bDriverAndDatabase\x7d;SERVER=srv;DATABASE=DriverAndDatabase;" ++
        "Encrypt=yes;TrustServerCertificate=yes;UID=sa;PWD=sa;") :=
  ⟨rfl, rfl⟩

/-- C3: as stated, idempotence is false: on `"select 1 ;"` the validator
returns `"select 1 "` (stripping the separator exposes a trailing space),
and validating that output returns `"select 1"`, a different text. -/
theorem c3_counterexample :
    validate_select_only_sql ("select 1 ;".toList) = .ok ("select 1 ".toList) ∧
    validate_select_only_sql ("select 1 ".toList) = .ok ("select 1".toList) ∧
    ("select 1 ".toList) ≠ ("select 1".toList) :=
  ⟨rfl, rfl, by decide⟩

/-- C3 (amended): for every raw string on which validation succeeds,
re-validating the returned text always succeeds, and yields the
re-normalization of that text (which differs only by trailing whitespace
or backticks exposed by stripping the trailing separator); whenever the
returned text equals its own normalization it is a true fixed point. -/
theorem c3_theorem : ∀ x t : Str, validate_select_only_sql x = .ok t →
    validate_select_only_sql t = .ok (pyNormalize t) ∧
      (pyNormalize t = t → validate_select_only_sql t = .ok t) := by
  intro x t h
  have hv := validate_on_validated h
  refine ⟨hv, fun he => ?_⟩
  rw [he] at hv
  exact hv

/-- C3 witness: the validated text of `"SELECT 1;"` is `"SELECT 1"`, which is
already normalized, hence a fixed point of validation. -/
theorem c3_witness :
    validate_select_only_sql ("SELECT 1".toList) = .ok ("SELECT 1".toList) :=
  (c3_theorem ("SELECT 1;".toList) ("SELECT 1".toList) rfl).2 rfl

/-- C4: as stated over the raw string, the claim is false: `"select 1; "`
has a separator before its final character, yet validation succeeds,
because the separator check runs on the normalized (trimmed) text. -/
theorem c4_counterexample :
    validate_select_only_sql ("select 1; ".toList) = .ok ("select 1".toList) ∧
    ';' ∈ ("select 1; ".toList).dropLast :=
  ⟨rfl, by decide⟩

/-- C4 (amended): for every raw string whose NORMALIZED text contains a
statement separator before its final character, validation fails with
`MultipleStatements`; when the normalized text has no such separator
(e.g. a single trailing one), `MultipleStatements` is never raised. -/
theorem c4_theorem : ∀ x : Str,
    (';' ∈ (pyNormalize x).dropLast →
      validate_select_only_sql x = .error .MultipleStatements) ∧
    (';' ∉ (pyNormalize x).dropLast →
      validate_select_only_sql x ≠ .error .MultipleStatements) := by
  intro x
  refine ⟨validate_multi_mk, ?_⟩
  intro hn hcon
  exact hn (validate_multi_inv hcon)

/-- C4 witness: `"SELECT 1; SELECT 2"` is rejected as multiple statements. -/
theorem c4_witness :
    validate_select_only_sql ("SELECT 1; SELECT 2".toList) =
      .error .MultipleStatements :=
  (c4_theorem ("SELECT 1; SELECT 2".toList)).1 (by decide)

/-- C5: the executor never returns more rows than `max_rows`, and with a cap
of 2 against a 5-row result the returned count is exactly 2; the scenario
query `"SELECT name FROM Customers"` validates to itself. -/
theorem c5_theorem :
    (∀ (d : Option (List Str)) (rows : List (List Value)) (m : Nat),
      (run_select_query d rows m).rows.length ≤ m) ∧
    (run_select_query (some [("name".toList)])
      [[Value.strV ("r1".toList)], [Value.strV ("r2".toList)],
       [Value.strV ("r3".toList)], [Value.strV ("r4".toList)],
       [Value.strV ("r5".toList)]] 2).row_count = 2 ∧
    validate_select_only_sql ("SELECT name FROM Customers".toList) =
      .ok ("SELECT name FROM Customers".toList) := by
  refine ⟨?_, rfl, rfl⟩
  intro d rows m
  unfold run_select_query
  dsimp only []
  rw [List.length_map]
  exact List.length_take_le _ _

/-- C6: as stated, the claim is false: the code does not deduplicate the
cursor's column names, so a query yielding two columns both named `a`
produces a ResultSet whose column sequence is not unique. -/
theorem c6_counterexample :
    ¬ (run_select_query (some [("a".toList), ("a".toList)])
        [[Value.intV 1, Value.intV 2]] 100).columns.Nodup := by
  decide

/-- C6 (amended): the column sequence is exactly the cursor's description in
order (it may repeat names); when the cursor's column names are pairwise
distinct and each fetched row has one value per column, every returned row
is an ordered mapping carrying exactly one value per column name, with the
key sequence equal to the column sequence. -/
theorem c6_theorem : ∀ (desc : List Str) (rows : List (List Value)) (m : Nat),
    desc.Nodup → (∀ r ∈ rows, r.length = desc.length) →
    (run_select_query (some desc) rows m).columns = desc ∧
    ∀ row ∈ (run_select_query (some desc) rows m).rows,
      row.map Prod.fst = desc := by
  intro desc rows m hnd hlen
  refine ⟨rfl, ?_⟩
  intro row hrow
  unfold run_select_query at hrow
  dsimp only [] at hrow
  obtain ⟨r, hr, hrow_eq⟩ := List.mem_map.mp hrow
  have hrlen : r.length = desc.length := hlen r (List.take_subset m rows hr)
  have hkeys : (desc.zip r).map Prod.fst = desc :=
    List.map_fst_zip desc r (by omega)
  have hpd : pyDict (desc.zip r) = desc.zip r :=
    pyDict_nodup (by rw [hkeys]; exact hnd)
  rw [← hrow_eq, hpd, hkeys]

/-- C6 witness: with distinct columns `a`, `b` and one full row, the row's
key sequence equals the column sequence. -/
theorem c6_witness :
    (run_select_query (some [("a".toList), ("b".toList)])
      [[Value.intV 1, Value.intV 2]] 5).columns = [("a".toList), ("b".toList)] ∧
    ∀ row ∈ (run_select_query (some [("a".toList), ("b".toList)])
      [[Value.intV 1, Value.intV 2]] 5).rows,
      row.map Prod.fst = [("a".toList), ("b".toList)] :=
  c6_theorem [("a".toList), ("b".toList)] [[Value.intV 1, Value.intV 2]] 5
    (by decide) (by decide)

/-- C7: `validate_select_only_sql "SELECT 1;"` succeeds and returns exactly
`"SELECT 1"`: the trailing separator is stripped and case is preserved. -/
theorem c7_theorem :
    validate_select_only_sql ("SELECT 1;".toList) = .ok ("SELECT 1".toList) := rfl

/-- C8: with both limits 0 the rendered schema description shows the
`(none found)` placeholder in both sections, and for every catalog and
every limits the description is non-empty and contains both the `TABLES:`
and the `COLUMNS:` labels. -/
theorem c8_theorem :
    (∀ (ct : List TableRow) (cc : List ColumnRow),
      fetch_schema_context ct cc 0 0 =
        ("TABLES:\n- (none found)\n\nCOLUMNS:\n- (none found)".toList)) ∧
    (∀ (ct : List TableRow) (cc : List ColumnRow) (lt lc : Nat),
      fetch_schema_context ct cc lt lc ≠ [] ∧
      (∃ pre post, fetch_schema_context ct cc lt lc =
        pre ++ ("TABLES:".toList) ++ post) ∧
      (∃ pre post, fetch_schema_context ct cc lt lc =
        pre ++ ("COLUMNS:".toList) ++ post)) := by
  constructor
  · intro ct cc
    unfold fetch_schema_context
    dsimp only []
    rw [List.take_zero, List.take_zero]
    rfl
  · intro ct cc lt lc
    unfold fetch_schema_context
    dsimp only []
    exact schema_render_props _ _

/-- C9: every text returned by a successful validation contains no statement
separator at any position (stronger than having no trailing separator). -/
theorem c9_theorem : ∀ x t : Str, validate_select_only_sql x = .ok t → ';' ∉ t :=
  fun _ _ h => semi_not_mem_of_ok h

/-- C9 witness: the validated text of `"SELECT 1;"` contains no separator. -/
theorem c9_witness : ';' ∉ ("SELECT 1".toList) :=
  c9_theorem ("SELECT 1;".toList) ("SELECT 1".toList) rfl

/-- C10: the reported `row_count` always equals the length of the returned
row list, never a pre-truncation database count. -/
theorem c10_theorem :
    ∀ (d : Option (List Str)) (rows : List (List Value)) (m : Nat),
      (run_select_query d rows m).row_count =
        (run_select_query d rows m).rows.length :=
  fun _ _ _ => rfl

end QuerySafety
